import Mathlib

/-!
Verification development for the BSI installer (`src/bsi_installer.pyw`).

The installer's core logic is embedded shallowly:

* POSIX-style path strings are manipulated exactly as the Python `os.path`
  helpers used by the source do (`split('/')`, `normpath`-style component
  normalization, `commonpath`, `relpath`), modelled on lists of characters
  and path components;
* the zip-extraction loops of `BSIInstaller._run_installation` (lines
  143-163) and `BSIInstaller._run_perform_update` (lines 462-478) are
  embedded as a fold of per-member filesystem operations over a tree that
  maps (destination-root-relative, normalized) paths to entries;
* Python exceptions are Except values; a `try/except` block is a `match`
  on them;
* the version logic of `_run_update_check` is embedded together with the
  numeric fragment of `packaging.version` parsing (optional leading `v`,
  dot-separated numeric release groups, shorter release padded with zeros)
  that the version tags handled by the installer exercise.
-/

/-! ## Character and string helpers mirroring the Python primitives -/

/-- `isPrefixList pre l` is `l.startswith(pre)` on character lists. -/
def isPrefixList : List Char → List Char → Bool
  | [], _ => true
  | _ :: _, [] => false
  | a :: as, b :: bs => a == b && isPrefixList as bs

/-- Python `s.startswith(pre)`. -/
def pyStartsWith (s pre : String) : Bool := isPrefixList pre.data s.data

/-- Python `s.endswith(suf)`. -/
def pyEndsWith (s suf : String) : Bool := isPrefixList suf.data.reverse s.data.reverse

/-- Helper for Python `str.split(sep)` with a one-character separator. -/
def splitCharAux (sep : Char) : List Char → List Char → List (List Char)
  | [], acc => [acc.reverse]
  | c :: rest, acc =>
    if c = sep then acc.reverse :: splitCharAux sep rest []
    else splitCharAux sep rest (c :: acc)

/-- Python `s.split('/')` (empty pieces kept, as in Python). -/
def splitSlash (s : String) : List String := (splitCharAux '/' s.data []).map String.mk

/-- Python `s.split('=')`. -/
def splitEq (s : String) : List String := (splitCharAux '=' s.data []).map String.mk

/-- Whitespace characters stripped by Python `str.strip()`. -/
def isPySpace (c : Char) : Bool :=
  c == ' ' || c == '\t' || c == '\n' || c == '\r' || c == '\x0b' || c == '\x0c'

/-- Python `s.strip()`. -/
def pyStrip (s : String) : String :=
  String.mk (((s.data.dropWhile isPySpace).reverse.dropWhile isPySpace).reverse)

/-- Python truthiness of an optional string (`None` and `""` are falsy). -/
def pyTruthy : Option String → Bool
  | none => false
  | some s => !s.data.isEmpty

/-- Python `a or b` on optional strings: first truthy operand. -/
def pyOr (a b : Option String) : Option String := if pyTruthy a then a else b

/-! ## Path component machinery (posixpath semantics)

`os.path.normpath` on a relative path drops empty and `.` components and
cancels `..` against preceding real components, keeping leading `..`.
`os.path.commonpath` splits each path on `/`, drops empty and `.`
components, and takes the longest common component prefix.
`os.path.relpath(path, start)` compares the normalized component lists and
prepends one `..` for every remaining `start` component.
-/

/-- One step of `normpath` component normalization; the accumulator holds
the already-normalized components in reverse order. -/
def normStepRev (acc : List String) (c : String) : List String :=
  if c = "" || c = "." then acc
  else if c = ".." then
    match acc with
    | [] => [".."]
    | a :: rest => if a = ".." then ".." :: a :: rest else rest
  else c :: acc

/-- `normpath`-style normalization of a relative path's component list. -/
def normParts (l : List String) : List String := (l.foldl normStepRev []).reverse

/-- Longest common prefix of two component lists. -/
def commonPre : List String → List String → List String
  | a :: as, b :: bs => if a = b then a :: commonPre as bs else []
  | _, _ => []

/-- Join components with `/` (as `os.path.commonpath` does for relative paths). -/
def joinSlash : List String → String
  | [] => ""
  | [x] => x
  | x :: y :: xs => x ++ "/" ++ joinSlash (y :: xs)

/-- Component filter used by `os.path.commonpath`: empty and `.` pieces dropped. -/
def keptComp (c : String) : Bool := !(c == "" || c == ".")

/-- Component lists `os.path.commonpath` compares for one path. -/
def commonComps (s : String) : List String := (splitSlash s).filter keptComp

/-- `os.path.relpath(name, start)` as a component list; `["."]` models the
result `"."`. -/
def relParts (name start : String) : List String :=
  let pn := normParts (splitSlash name)
  let sn := normParts (splitSlash start)
  let k := (commonPre pn sn).length
  let rel := List.replicate (sn.length - k) ".." ++ pn.drop k
  if rel = [] then ["."] else rel

/-! ## The filesystem tree and the per-member operations -/

/-- A filesystem entry: directory, or file with its bytes (kept abstract
as a string, copied verbatim by `shutil.copyfileobj`). -/
inductive Entry
  | dir
  | file (data : String)
  deriving DecidableEq

/-- Paths relative to the destination root (`beam_server_path`), as
normalized component lists; a leading `".."` means outside the root. -/
abbrev FsPath := List String

/-- The destination tree: the root itself always exists and is not keyed. -/
abbrev FsTree := FsPath → Option Entry

def emptyTree : FsTree := fun _ => none

def setT (t : FsTree) (p : FsPath) (e : Entry) : FsTree :=
  fun q => if q = p then some e else t q

/-- Errors raised during extraction (all are caught by the source's
`except Exception` handler, which aborts the extraction step). -/
inductive ExErr
  | emptySeq
  | notADirectory
  | isADirectory
  deriving DecidableEq

/-- `os.makedirs(done ++ todo, exist_ok=True)`: walk down `todo`, creating
each missing intermediate directory, failing if a non-directory entry is in
the way (Python `NotADirectoryError` / `FileExistsError`). -/
def mkdirAux : List String → FsTree → List String → Except ExErr FsTree
  | _, t, [] => .ok t
  | done, t, c :: rest =>
    match t (done ++ [c]) with
    | some Entry.dir => mkdirAux (done ++ [c]) t rest
    | some (Entry.file _) => .error .notADirectory
    | none => mkdirAux (done ++ [c]) (setT t (done ++ [c]) Entry.dir) rest

/-- `os.makedirs(path, exist_ok=True)` relative to the destination root. -/
def mkdirAll (t : FsTree) (p : FsPath) : Except ExErr FsTree := mkdirAux [] t p

/-- `os.makedirs(os.path.dirname(target), exist_ok=True)` followed by
`open(target, "wb")` + `shutil.copyfileobj`: ensure the parent chain,
then overwrite the target file (opening a directory for writing raises). -/
def writeFileT (t : FsTree) (p : FsPath) (v : String) : Except ExErr FsTree :=
  match mkdirAll t p.dropLast with
  | .error e => .error e
  | .ok t1 =>
    match t1 p with
    | some Entry.dir => .error .isADirectory
    | _ => .ok (setT t1 p (Entry.file v))

/-! ## The extraction loop of `_run_installation` / `_run_perform_update` -/

/-- A zip member: its name in the archive and (for file members) its bytes. -/
structure Member where
  name : String
  content : String
  deriving DecidableEq

/-- `BSI_REPO_NAME` in the source. -/
def BSI_REPO_NAME : String := "Beammp-server-creator"

/-- The filter of the `common_prefix` computation:
`m.startswith(f"{BSI_REPO_NAME}-") and m.endswith('/')`. -/
def isRootDirCandidate (n : String) : Bool :=
  pyStartsWith n (BSI_REPO_NAME ++ "-") && pyEndsWith n "/"

/-- `os.path.commonpath([m for m in namelist if ...])`: `ValueError` on an
empty sequence, otherwise the longest common component prefix re-joined. -/
def commonRootOf (names : List String) : Except ExErr String :=
  match names.filter isRootDirCandidate with
  | [] => .error .emptySeq
  | n :: rest =>
    .ok (joinSlash ((rest.map commonComps).foldl commonPre (commonComps n)))

/-- A single filesystem operation performed by the member loop. -/
inductive FsOp
  | mkdir (p : FsPath)
  | writeF (p : FsPath) (v : String)
  deriving DecidableEq

/-- What the loop body does for one member: skipped when the name does not
start with `common_prefix` or when the stripped relative path is `"."`;
a directory entry (name ending in `/`) becomes `os.makedirs`; a file entry
becomes parent creation plus a verbatim overwrite. -/
def memberOp (c : String) (m : Member) : Option FsOp :=
  if pyStartsWith m.name c then
    let suffix := relParts m.name c
    if suffix = ["."] then none
    else if pyEndsWith m.name "/" then some (.mkdir suffix)
    else some (.writeF suffix m.content)
  else none

def opsOf (c : String) (ms : List Member) : List FsOp := ms.filterMap (memberOp c)

def runOp : FsOp → FsTree → Except ExErr FsTree
  | .mkdir p, t => mkdirAll t p
  | .writeF p v, t => writeFileT t p v

def runOps : List FsOp → FsTree → Except ExErr FsTree
  | [], t => .ok t
  | o :: os, t =>
    match runOp o t with
    | .error e => .error e
    | .ok t2 => runOps os t2

/-- The extraction step shared by `_run_installation` (lines 143-163) and
`_run_perform_update` (lines 462-478): compute the common root of the
matching directory entries, then run the member loop in archive order. -/
def extractArchive (ms : List Member) (t : FsTree) : Except ExErr FsTree :=
  match commonRootOf (ms.map Member.name) with
  | .error e => .error e
  | .ok c => runOps (opsOf c ms) t

/-- The tree produced by a successful extraction (the input tree if the
extraction failed). -/
def extractResult (ms : List Member) (t : FsTree) : FsTree :=
  match extractArchive ms t with
  | .ok r => r
  | .error _ => t

/-- A path escapes the destination root when its normalized form still
begins with `..`. -/
def escapesRoot (p : FsPath) : Bool :=
  match p with
  | [] => false
  | c :: _ => c == ".."

/-! ## C1: a crafted archive reaches outside the destination root -/

/-- A structurally valid archive whose second member's stripped relative
path climbs out of the destination root. -/
def evilArchive : List Member :=
  [⟨"Beammp-server-creator-1.0/", ""⟩,
   ⟨"Beammp-server-creator-1.0/../../evil.txt", "evil-payload"⟩]

/-- C1 (code bug): the spec requires extraction to refuse any entry whose
prefix-stripped relative path resolves outside the destination root, but
the extraction loop performs no such check: on `evilArchive` it succeeds
and writes the file entry at `../../evil.txt` relative to the destination
root, i.e. outside it. -/
theorem extraction_places_entry_outside_destroot :
    extractArchive evilArchive emptyTree
        = Except.ok (extractResult evilArchive emptyTree)
      ∧ extractResult evilArchive emptyTree ["..", "..", "evil.txt"]
        = some (Entry.file "evil-payload")
      ∧ escapesRoot ["..", "..", "evil.txt"] = true := by
  refine ⟨rfl, ?_, rfl⟩
  rfl

/-! ## C10: archives with no matching directory entry are rejected up front -/

/-- C10 (confirmed): when no member name starts with
`"Beammp-server-creator-"` and ends with `/`, the list fed to
`os.path.commonpath` is empty, so it raises `ValueError` before the member
loop runs: extraction fails without writing any entry. -/
theorem extract_errors_without_root_dir_entry
    (ms : List Member) (t : FsTree)
    (h : (ms.map Member.name).filter isRootDirCandidate = []) :
    extractArchive ms t = Except.error ExErr.emptySeq := by
  unfold extractArchive commonRootOf
  rw [h]

/-- Witness for C10: a structurally valid archive holding a single plain
file member is rejected with the empty-sequence error. -/
theorem extract_errors_without_root_dir_entry_witness :
    extractArchive [⟨"README.md", "hello"⟩] emptyTree
      = Except.error ExErr.emptySeq :=
  extract_errors_without_root_dir_entry [⟨"README.md", "hello"⟩] emptyTree (by decide)

/-! ## Version parsing and the update-availability decision

`_run_update_check` (lines 365-401) compares versions with
`packaging.version.parse`. The tags the installer handles are plain
numeric releases with an optional leading `v` (e.g. `v0.4.5`); the
embedding covers exactly that fragment of the PEP 440 grammar: optional
leading `v`/`V`, dot-separated nonempty digit groups, parsed to a list of
naturals; any other shape raises `InvalidVersion`, modelled as `none`.
PEP 440 compares release segments componentwise with the shorter segment
padded with zeros.
-/

/-- Parse one nonempty digit group. -/
def digitGroupVal : List Char → Option Nat
  | [] => none
  | cs => cs.foldl (fun acc c =>
      match acc with
      | none => none
      | some n => if c.isDigit then some (n * 10 + (c.toNat - 48)) else none)
      (some 0)

/-- Parse a dot-separated numeric release such as `0.4.5`. -/
def parseGroups (cs : List Char) : Option (List Nat) :=
  (splitCharAux '.' cs []).foldr (fun g acc =>
    match digitGroupVal g, acc with
    | some n, some ns => some (n :: ns)
    | _, _ => none) (some [])

/-- The fragment of `packaging.version.parse` exercised by the installer's
tags: optional leading `v`, then a dot-separated numeric release. -/
def parseRelease (s : String) : Option (List Nat) :=
  match s.data with
  | 'v' :: rest => parseGroups rest
  | 'V' :: rest => parseGroups rest
  | cs => parseGroups cs

/-- Strict PEP 440 ordering on release segments: componentwise with the
shorter list padded with zeros. -/
def relLt : List Nat → List Nat → Bool
  | [], bs => bs.any (fun b => b ≠ 0)
  | _ :: _, [] => false
  | a :: as, b :: bs => a < b || (a == b && relLt as bs)

/-- `CURRENT_INSTALLER_VERSION` in the source. -/
def CURRENT_INSTALLER_VERSION : String := "v0.4.5"

/-- The component branch of `_run_update_check` (lines 379-387):
`bsi_update_available` starts `False` and becomes `True` only when both
the latest remote tag and the recorded current version are truthy, both
parse, and latest > current; a parse error is caught and leaves `False`. -/
def bsiUpdateAvailable (latest current : Option String) : Bool :=
  if pyTruthy latest && pyTruthy current then
    match parseRelease (latest.getD ""), parseRelease (current.getD "") with
    | some l, some c => relLt c l
    | _, _ => false
  else false

/-- The installer branch of `_run_update_check` (lines 393-401): compared
against the running installer's own constant version. -/
def installerUpdateAvailable (latest : Option String) : Bool :=
  if pyTruthy latest then
    match parseRelease (latest.getD ""), parseRelease CURRENT_INSTALLER_VERSION with
    | some l, some c => relLt c l
    | _, _ => false
  else false

theorem relLt_irrefl (a : List Nat) : relLt a a = false := by
  induction a with
  | nil => rfl
  | cons x xs ih => simp [relLt, ih]

theorem relLt_asymm (a b : List Nat) (h : relLt a b = true) : relLt b a = false := by
  induction a generalizing b with
  | nil =>
    cases b with
    | nil => rfl
    | cons y ys => rfl
  | cons x xs ih =>
    cases b with
    | nil => simp [relLt] at h
    | cons y ys =>
      simp only [relLt, Bool.or_eq_true, Bool.and_eq_true, beq_iff_eq,
        decide_eq_true_eq] at h
      simp only [relLt, Bool.or_eq_false_iff, decide_eq_false_iff_not, Nat.not_lt,
        Bool.and_eq_false_iff, beq_eq_false_iff_ne, ne_eq]
      rcases h with hlt | ⟨heq, hrec⟩
      · exact ⟨Nat.le_of_lt hlt, Or.inl (by omega)⟩
      · subst heq
        exact ⟨Nat.le_refl x, Or.inr (ih ys hrec)⟩

/-- Parsing the empty tag fails (so a `None` or empty latest/current tag
can never signal an update, with or without the truthiness guard). -/
theorem parseRelease_empty : parseRelease "" = none := by decide

/-- C2 (confirmed): `bsi_update_available` is `False` whenever the current
local version is absent; for present tags it is `True` exactly when both
tags parse and latest > current under the padded componentwise ordering;
consequently for parseable `a < b` it is `True` with `latest=b, current=a`
and `False` with `latest=a, current=b`. -/
theorem updateAvailable_characterization :
    (∀ latest, bsiUpdateAvailable latest none = false)
    ∧ (∀ lt ct, bsiUpdateAvailable (some lt) (some ct) = true
        ↔ ∃ l c, parseRelease lt = some l ∧ parseRelease ct = some c
            ∧ relLt c l = true)
    ∧ (∀ a b va vb, parseRelease a = some va → parseRelease b = some vb →
        relLt va vb = true →
        bsiUpdateAvailable (some b) (some a) = true
          ∧ bsiUpdateAvailable (some a) (some b) = false) := by
  have hempty : ∀ s : String, s.data.isEmpty = true → parseRelease s = none := by
    intro s hs
    cases s with
    | mk data =>
      cases data with
      | nil => exact parseRelease_empty
      | cons c cs => simp [List.isEmpty] at hs
  refine ⟨fun latest => by simp [bsiUpdateAvailable, pyTruthy], ?_, ?_⟩
  · intro lt ct
    constructor
    · intro h
      by_cases hl : lt.data.isEmpty
      · simp [bsiUpdateAvailable, pyTruthy, hl] at h
      · by_cases hc : ct.data.isEmpty
        · simp [bsiUpdateAvailable, pyTruthy, hc] at h
        · simp only [bsiUpdateAvailable, pyTruthy, hl, hc, Bool.not_false,
            Bool.and_self, if_true, Option.getD_some] at h
          cases hpl : parseRelease lt with
          | none => rw [hpl] at h; cases hpc : parseRelease ct <;> rw [hpc] at h <;> simp at h
          | some l =>
            rw [hpl] at h
            cases hpc : parseRelease ct with
            | none => rw [hpc] at h; simp at h
            | some c => rw [hpc] at h; exact ⟨l, c, rfl, rfl, h⟩
    · rintro ⟨l, c, hpl, hpc, hlt⟩
      have hl : lt.data.isEmpty = false := by
        cases he : lt.data.isEmpty with
        | false => rfl
        | true => rw [hempty lt he] at hpl; cases hpl
      have hc : ct.data.isEmpty = false := by
        cases he : ct.data.isEmpty with
        | false => rfl
        | true => rw [hempty ct he] at hpc; cases hpc
      simp [bsiUpdateAvailable, pyTruthy, hl, hc, hpl, hpc, hlt]
  · intro a b va vb hpa hpb hlt
    have ha : a.data.isEmpty = false := by
      cases he : a.data.isEmpty with
      | false => rfl
      | true => rw [hempty a he] at hpa; cases hpa
    have hb : b.data.isEmpty = false := by
      cases he : b.data.isEmpty with
      | false => rfl
      | true => rw [hempty b he] at hpb; cases hpb
    constructor
    · simp [bsiUpdateAvailable, pyTruthy, ha, hb, hpa, hpb, hlt]
    · simp [bsiUpdateAvailable, pyTruthy, ha, hb, hpa, hpb, relLt_asymm va vb hlt]

/-- Witness for C2: with current `v0.4.5` and latest `v0.5.0` an update is
signaled; with the tags swapped it is not. -/
theorem updateAvailable_characterization_witness :
    bsiUpdateAvailable (some "v0.5.0") (some "v0.4.5") = true
      ∧ bsiUpdateAvailable (some "v0.4.5") (some "v0.5.0") = false :=
  updateAvailable_characterization.2.2 "v0.4.5" "v0.5.0" [0, 4, 5] [0, 5, 0]
    (by decide) (by decide) (by decide)

/-! ## The remote version resolver (`get_latest_github_release_tag`)

Lines 346-360. The request, `raise_for_status`, and `response.json()` can
raise: transport errors and HTTP errors are
`requests.exceptions.RequestException`s directly, and a body that is not
decodable as JSON raises `requests.exceptions.JSONDecodeError`, a
`RequestException` subclass (in requests >= 2.27; the repository does not
pin a version). All of those are caught by the single
`except requests.exceptions.RequestException` clause, which returns
`None`. But `response.json()` can also succeed with a value that is not an
object (`[]`, `null`, a string, a number): then
`latest_release_data.get("tag_name")` raises `AttributeError`, which is
not a `RequestException` and escapes the handler. A JSON *object* body
without a `tag_name` field yields `None` via `dict.get`.
-/

/-- The Python exceptions that the resolver's body can raise. -/
inductive PyExn
  | requestExn
  | jsonDecodeErr
  | attributeErr
  deriving DecidableEq

/-- Subclass test for `except requests.exceptions.RequestException`
(`JSONDecodeError` subclasses it in requests >= 2.27; `AttributeError`
never does). -/
def isRequestExn : PyExn → Bool
  | .requestExn => true
  | .jsonDecodeErr => true
  | .attributeErr => false

/-- What the remote endpoint did for one request: transport failure,
non-2xx status, 2xx body that is not decodable as JSON, 2xx body that
decodes to a non-object JSON value, or a 2xx JSON object with an optional
`tag_name` field. -/
inductive RemoteResp
  | transportError
  | httpError
  | undecodableBody
  | nonObjectBody
  | objectBody (tag : Option String)
  deriving DecidableEq

/-- The resolver's `try` body: request + `raise_for_status` + `.json()` +
`.get("tag_name")` (`.get` on a non-dict raises `AttributeError`). -/
def fetchLatestRaw : RemoteResp → Except PyExn (Option String)
  | .transportError => .error .requestExn
  | .httpError => .error .requestExn
  | .undecodableBody => .error .jsonDecodeErr
  | .nonObjectBody => .error .attributeErr
  | .objectBody tag => .ok tag

/-- `get_latest_github_release_tag`: the `try` body with its
`except RequestException: return None` handler; exceptions outside that
class propagate to the caller. -/
def getLatestReleaseTag (r : RemoteResp) : Except PyExn (Option String) :=
  match fetchLatestRaw r with
  | .error e => if isRequestExn e then .ok none else .error e
  | .ok tag => .ok tag

/-- C4 counterexample: on a 2xx response whose body decodes to a
non-object JSON value, `.get("tag_name")` raises `AttributeError`, which
the `except RequestException` clause does not catch — the resolver
propagates the exception instead of returning `None`. -/
theorem latestTag_nonobject_body_raises :
    getLatestReleaseTag RemoteResp.nonObjectBody
        = Except.error PyExn.attributeErr
      ∧ isRequestExn PyExn.attributeErr = false := by
  exact ⟨rfl, rfl⟩

/-- C4 (corrected): the resolver returns a tag when an object body carries
one, and `None` (\"unavailable\") on every network failure, non-2xx
status, body undecodable as JSON (with `JSONDecodeError` a
`RequestException`, as in requests >= 2.27), or object body missing the
tag field — but a 2xx body decoding to a non-object JSON value makes it
propagate an `AttributeError` to the caller. -/
theorem latestTag_characterization :
    ∀ r, getLatestReleaseTag r
      = match r with
        | .objectBody tag => Except.ok tag
        | .nonObjectBody => Except.error PyExn.attributeErr
        | _ => Except.ok none := by
  intro r
  cases r <;> rfl

/-! ## The persisted release state (`read_release_file`, lines 308-332)

The whole read is wrapped in `try/except Exception`; a missing file is
detected up front and skips reading. Each line is stripped and matched
against the two key prefixes; `line.split('=')[1]` is guarded by a
per-line `except IndexError` that leaves the value unchanged.
-/

/-- The state of a file on disk as the reader experiences it. -/
inductive FileState
  | missing
  | unreadable
  | content (lines : List String)
  deriving DecidableEq

/-- `line.split('=')[1].strip()` under the per-line `except IndexError`:
`none` when the index is out of range. -/
def eqFieldValue (l : String) : Option String :=
  match (splitEq l).get? 1 with
  | some v => some (pyStrip v)
  | none => none

/-- One iteration of the line loop of `read_release_file`. -/
def releaseLineStep (acc : Option String × Option String) (line : String) :
    Option String × Option String :=
  let l := pyStrip line
  if pyStartsWith l "BSC_Current_Version =" then
    match eqFieldValue l with
    | some v => (some v, acc.2)
    | none => acc
  else if pyStartsWith l "BSC_installer_Current_version =" then
    match eqFieldValue l with
    | some v => (acc.1, some v)
    | none => acc
  else acc

/-- `read_release_file`: `(None, None)` when the file is missing or the
read raises (caught by `except Exception`), otherwise the line scan. -/
def readReleaseFile : FileState → Option String × Option String
  | .missing => (none, none)
  | .unreadable => (none, none)
  | .content lines => lines.foldl releaseLineStep (none, none)

/-- C5 (confirmed): reading the release state never raises (it is a total
function of the file state): a missing or unreadable file yields absent
for both versions, and content none of whose stripped lines starts with a
key prefix leaves the corresponding version absent. -/
theorem readReleaseFile_degrades_to_absent :
    readReleaseFile .missing = (none, none)
    ∧ readReleaseFile .unreadable = (none, none)
    ∧ (∀ lines, (∀ l ∈ lines,
          pyStartsWith (pyStrip l) "BSC_Current_Version =" = false) →
        (readReleaseFile (.content lines)).1 = none)
    ∧ (∀ lines, (∀ l ∈ lines,
          pyStartsWith (pyStrip l) "BSC_installer_Current_version =" = false) →
        (readReleaseFile (.content lines)).2 = none) := by
  refine ⟨rfl, rfl, ?_, ?_⟩
  · intro lines h
    suffices hgen : ∀ acc : Option String × Option String,
        acc.1 = none → (lines.foldl releaseLineStep acc).1 = none by
      exact hgen (none, none) rfl
    induction lines with
    | nil => intro acc hacc; exact hacc
    | cons l rest ih =>
      intro acc hacc
      have hl := h l (List.mem_cons_self l rest)
      have hrest : ∀ x ∈ rest,
          pyStartsWith (pyStrip x) "BSC_Current_Version =" = false :=
        fun x hx => h x (List.mem_cons_of_mem l hx)
      refine ih hrest _ ?_
      simp only [releaseLineStep, hl, Bool.false_eq_true, if_false]
      by_cases h2 : pyStartsWith (pyStrip l) "BSC_installer_Current_version =" = true
      · simp only [h2, if_true]
        cases eqFieldValue (pyStrip l) with
        | some v => exact hacc
        | none => exact hacc
      · simp only [Bool.not_eq_true] at h2
        simp only [h2, Bool.false_eq_true, if_false]
        exact hacc
  · intro lines h
    suffices hgen : ∀ acc : Option String × Option String,
        acc.2 = none → (lines.foldl releaseLineStep acc).2 = none by
      exact hgen (none, none) rfl
    induction lines with
    | nil => intro acc hacc; exact hacc
    | cons l rest ih =>
      intro acc hacc
      have hl := h l (List.mem_cons_self l rest)
      have hrest : ∀ x ∈ rest,
          pyStartsWith (pyStrip x) "BSC_installer_Current_version =" = false :=
        fun x hx => h x (List.mem_cons_of_mem l hx)
      refine ih hrest _ ?_
      simp only [releaseLineStep, hl]
      by_cases h1 : pyStartsWith (pyStrip l) "BSC_Current_Version =" = true
      · simp only [h1, if_true]
        cases eqFieldValue (pyStrip l) with
        | some v => exact hacc
        | none => exact hacc
      · simp only [Bool.not_eq_true] at h1
        simp only [h1, Bool.false_eq_true, if_false, hl]
        exact hacc

/-- Witness for C5: a malformed release file (a stray header and a
corrupted key line) reads back as absent for both versions. -/
theorem readReleaseFile_degrades_to_absent_witness :
    readReleaseFile (.content ["garbage header", "BSC Current Version: v1"])
      = (none, none) := by
  have h1 := readReleaseFile_degrades_to_absent.2.2.1
    ["garbage header", "BSC Current Version: v1"] (by decide)
  have h2 := readReleaseFile_degrades_to_absent.2.2.2
    ["garbage header", "BSC Current Version: v1"] (by decide)
  exact Prod.ext h1 h2

/-! ## Loading the stored install path (`load_installation_path`, 272-291)

`self.install_path` is preset to the default; the loader only overwrites
it (and stops scanning) at the first stripped `InstallPath=` line whose
extracted path contains an existing `Beam Server` sub-directory. The
filesystem's directory test is a parameter of the embedding. A read
failure is caught and leaves the default in place.
-/

/-- `os.path.join(saved_path, "Beam Server")` for a relative-or-absolute
saved path string (Python joins with a single `/`). -/
def joinPath (base sub : String) : String :=
  if base = "" then sub
  else if pyEndsWith base "/" then base ++ sub
  else base ++ "/" ++ sub

/-- The line scan of `load_installation_path`: the first `InstallPath=`
line whose saved path passes the `Beam Server` directory check wins. -/
def scanInstallPathLines (isdir : String → Bool) : List String → Option String
  | [] => none
  | line :: rest =>
    let l := pyStrip line
    if pyStartsWith l "InstallPath=" then
      match eqFieldValue l with
      | some saved =>
        if isdir (joinPath saved "Beam Server") then some saved
        else scanInstallPathLines isdir rest
      | none => scanInstallPathLines isdir rest
    else scanInstallPathLines isdir rest

/-- `load_installation_path`: the stored path is adopted only when
validated; otherwise (missing config, unreadable config, or no validated
line) the preset default remains. -/
def loadInstallationPath (defaultPath : String) (cfg : FileState)
    (isdir : String → Bool) : String :=
  match cfg with
  | .missing => defaultPath
  | .unreadable => defaultPath
  | .content lines =>
    match scanInstallPathLines isdir lines with
    | some saved => saved
    | none => defaultPath

theorem scanInstallPathLines_validated (isdir : String → Bool) :
    ∀ lines saved, scanInstallPathLines isdir lines = some saved →
      isdir (joinPath saved "Beam Server") = true := by
  intro lines
  induction lines with
  | nil => intro saved h; cases h
  | cons line rest ih =>
    intro saved h
    by_cases hs : pyStartsWith (pyStrip line) "InstallPath=" = true
    · rw [scanInstallPathLines, if_pos hs] at h
      cases hv : eqFieldValue (pyStrip line) with
      | some v =>
        simp only [hv] at h
        by_cases hd : isdir (joinPath v "Beam Server") = true
        · simp only [hd, if_true] at h
          cases h
          exact hd
        · simp only [hd, if_false] at h
          exact ih saved h
      | none =>
        simp only [hv] at h
        exact ih saved h
    · simp only [Bool.not_eq_true] at hs
      rw [scanInstallPathLines, hs] at h
      simp only [Bool.false_eq_true, if_false] at h
      exact ih saved h

/-- C6 (confirmed): at startup the loaded installation path is either the
default install path, or a stored path under which the expected
`Beam Server` sub-folder actually exists — a stored path failing the check
is never adopted. -/
theorem loadInstallationPath_only_validated :
    ∀ defaultPath cfg isdir,
      loadInstallationPath defaultPath cfg isdir = defaultPath
      ∨ isdir (joinPath (loadInstallationPath defaultPath cfg isdir)
          "Beam Server") = true := by
  intro defaultPath cfg isdir
  cases cfg with
  | missing => exact Or.inl rfl
  | unreadable => exact Or.inl rfl
  | content lines =>
    cases hscan : scanInstallPathLines isdir lines with
    | none =>
      left
      simp [loadInstallationPath, hscan]
    | some saved =>
      right
      have := scanInstallPathLines_validated isdir lines saved hscan
      simpa [loadInstallationPath, hscan] using this

/-! ## The bootstrap step (lines 208-224)

Inside `_run_installation` with server creation requested: one `try` block
wraps `subprocess.Popen`, the fixed sleep, `process.terminate()` and
`process.wait()`; its single `except Exception` handler posts an error
status (`"Error running BeamMP-Server.exe"`), shows an error dialog and
returns, aborting the installation.
-/

/-- Outcome of the `subprocess.Popen` launch. -/
inductive LaunchRes
  | launched
  | raiseLaunch
  deriving DecidableEq, Fintype

/-- Outcome of `process.terminate()` / `process.wait()`. -/
inductive TermRes
  | terminated
  | raiseTerm
  deriving DecidableEq, Fintype

/-- What the surrounding workflow does after the bootstrap block. -/
inductive StepRes
  | abortError
  | continueWorkflow
  deriving DecidableEq, Fintype

/-- The bootstrap block: any exception from the launch or from the
terminate/wait sequence reaches the same `except Exception` handler and
aborts; only a fully clean run continues the workflow. -/
def runBootstrapStep (l : LaunchRes) (t : TermRes) : StepRes :=
  match l with
  | .raiseLaunch => .abortError
  | .launched =>
    match t with
    | .raiseTerm => .abortError
    | .terminated => .continueWorkflow

/-- C7 counterexample: the claim says a failure to terminate the launched
process is tolerated (logged, workflow continues), but on a clean launch
followed by a failing terminate the code aborts with an error. -/
theorem bootstrap_terminate_failure_aborts :
    runBootstrapStep LaunchRes.launched TermRes.raiseTerm
      ≠ StepRes.continueWorkflow := by decide

/-- C7 (corrected): a failed launch is reported as an error, and a failed
terminate is reported as an error just the same — the workflow continues
only when both the launch and the terminate/wait succeed. -/
theorem bootstrap_outcome_characterization :
    ∀ l t, runBootstrapStep l t = StepRes.continueWorkflow
      ↔ (l = LaunchRes.launched ∧ t = TermRes.terminated) := by
  decide

/-! ## The installation workflow's progress percentages (`_run_installation`)

Lines 99-264. Each `progress_page.update_status(message, pct, ...)` call
emits one percentage; the emitted sequence depends only on which branches
run, so the run is configured by booleans (tag values never influence the
percentages). The emission order follows the source exactly, including the
fallback at lines 106-113 that resolves the version synchronously (pct 15)
before the folder-creation steps (pct 5, 10, ...).
-/

/-- The branch conditions of one `_run_installation` run. -/
structure InstallRunCfg where
  versionPreResolved : Bool
  syncFetchOk : Bool
  bsiDownloadOk : Bool
  bsiExtractOk : Bool
  deleteZip : Bool
  createServer : Bool
  serverExeDownloadOk : Bool
  serverBootstrapOk : Bool
  serverExeExists : Bool
  configAtRootOnly : Bool
  shortcutExists : Bool
  deriving DecidableEq

/-- The percentages emitted by `_run_installation` after the version
fallback, in source order. -/
def installTraceMain (c : InstallRunCfg) : List Nat :=
  5 :: 10 :: 20 ::
  (if c.bsiDownloadOk then
    40 ::
    (if c.bsiExtractOk then
      50 :: 55 ::
      (if c.createServer then
        60 :: 65 ::
        (if c.serverExeDownloadOk then
          75 ::
          (if c.serverBootstrapOk then
            85 :: 90 ::
            (if c.serverExeExists then
              (if c.configAtRootOnly then [95] else []) ++
              (if c.shortcutExists then [100] else [100])
            else [100])
          else [100])
        else [100])
      else [100])
    else [100])
  else [100])

/-- The full percentage sequence of one `_run_installation` run, starting
with the synchronous version-resolution fallback when no version was
pre-resolved by the background check. -/
def installProgressTrace (c : InstallRunCfg) : List Nat :=
  if c.versionPreResolved then installTraceMain c
  else 15 :: (if c.syncFetchOk then installTraceMain c else [100])

/-- A Boolean monotonicity check for a percentage sequence. -/
def nondecList : List Nat → Bool
  | [] => true
  | [_] => true
  | a :: b :: rest => a ≤ b && nondecList (b :: rest)

/-- C8 (code bug): on the fallback path — version not yet resolved when
installation starts, synchronous fetch succeeding, a plain run with
`create_server` off and `delete_zip` on — the emitted percentages are
`15, 5, 10, 20, 40, 50, 55, 100`: the sequence decreases from 15 to 5,
violating the monotonically-non-decreasing progress property. -/
theorem installTrace_fallback_not_monotone :
    installProgressTrace
        ⟨false, true, true, true, true, false, true, true, true, false, true⟩
      = [15, 5, 10, 20, 40, 50, 55, 100]
    ∧ nondecList [15, 5, 10, 20, 40, 50, 55, 100] = false := by
  exact ⟨rfl, rfl⟩

/-- On every run with a pre-resolved version the emitted percentages are
monotonically non-decreasing: the violation is confined to the fallback. -/
theorem installTrace_preresolved_monotone :
    ∀ b2 b3 b4 b5 b6 b7 b8 b9 b10 b11 : Bool,
      nondecList (installProgressTrace
        ⟨true, b2, b3, b4, b5, b6, b7, b8, b9, b10, b11⟩) = true := by
  decide

/-! ## The update run and the persisted release record (`_run_perform_update`)

Lines 441-541 together with `write_release_file` (334-344) and the
availability flags computed by `_run_update_check`. The release record is
modelled at the key-value level: the two optional fields that
`read_release_file` recovers. The component branch re-writes the record
with `(latest_bsi_version, current_installer_installed_version or
CURRENT_INSTALLER_VERSION)`; the installer branch (only reached while
`update_success` holds) stages the new script and re-writes the record
with `(current_bsc_version or latest_bsi_version, latest_installer_version)`.
-/

/-- The parsed release record (`BSC_Current_Version`,
`BSC_installer_Current_version`). -/
structure ReleaseRec where
  bsc : Option String
  inst : Option String
  deriving DecidableEq

/-- Result of one `_run_perform_update` run. -/
structure UpdateOutcome where
  rel : ReleaseRec
  stagedNewScript : Bool
  success : Bool
  deriving DecidableEq

/-- `_run_perform_update`, with the availability flags recomputed exactly
as `_run_update_check` computes them from the release record read at
startup and the two remote tags. `componentFetchOk`/`componentExtractOk`
and `installerFetchOk` are the outcomes of the fallible steps. -/
def performUpdateRun (latestBsi latestInst : Option String) (rel0 : ReleaseRec)
    (componentFetchOk componentExtractOk installerFetchOk : Bool) :
    UpdateOutcome :=
  let currentBsc := rel0.bsc
  let currentInst := rel0.inst
  let bsiAvail := bsiUpdateAvailable latestBsi currentBsc
  let instAvail := installerUpdateAvailable latestInst
  let afterComponent : ReleaseRec × Bool :=
    if bsiAvail then
      if componentFetchOk && componentExtractOk then
        (⟨latestBsi, pyOr currentInst (some CURRENT_INSTALLER_VERSION)⟩, true)
      else (rel0, false)
    else (rel0, true)
  let rel1 := afterComponent.1
  let success1 := afterComponent.2
  if instAvail && success1 then
    if installerFetchOk then
      (⟨⟨pyOr currentBsc latestBsi, latestInst⟩, true, true⟩ : UpdateOutcome)
    else ⟨rel1, false, false⟩
  else ⟨rel1, false, success1⟩

/-- C9 counterexample: an update run where the component has a newer
remote version (`v0.1.0` installed, `v0.2.0` remote), no installer update
is available, and the component steps succeed, but the release record's
installer field was absent before the run — after the run it holds the
running installer's constant `v0.4.5`: the persisted installer version did
not keep its prior value. -/
theorem update_run_installer_field_changes_when_absent :
    (performUpdateRun (some "v0.2.0") none ⟨some "v0.1.0", none⟩
        true true true).rel.inst = some "v0.4.5"
    ∧ (⟨some "v0.1.0", none⟩ : ReleaseRec).inst = none := by
  exact ⟨rfl, rfl⟩

/-- C9 (corrected): when a component update is available, no installer
update is available, the component steps succeed, and the installer field
was present (truthy) before the run, the run rewrites only the component
version: the installer field keeps its prior value, no new installer
script is staged, and the run succeeds. -/
theorem update_run_preserves_installer_field
    (latestBsi latestInst : Option String) (bsc0 inst0 : Option String)
    (havail : bsiUpdateAvailable latestBsi bsc0 = true)
    (hnoinst : installerUpdateAvailable latestInst = false)
    (hpresent : pyTruthy inst0 = true) :
    performUpdateRun latestBsi latestInst ⟨bsc0, inst0⟩ true true true
      = ⟨⟨latestBsi, inst0⟩, false, true⟩ := by
  unfold performUpdateRun
  simp only [havail, hnoinst, if_true, Bool.true_and, Bool.false_and,
    Bool.false_eq_true, if_false, pyOr, hpresent]

/-- Witness for C9: installed component `v0.1.0` with installer field
`v0.4.5` recorded, remote component `v0.2.0`, no installer tag reachable —
the run updates the component version and leaves the installer field
untouched without staging a script. -/
theorem update_run_preserves_installer_field_witness :
    performUpdateRun (some "v0.2.0") none ⟨some "v0.1.0", some "v0.4.5"⟩
        true true true
      = ⟨⟨some "v0.2.0", some "v0.4.5"⟩, false, true⟩ :=
  update_run_preserves_installer_field (some "v0.2.0") none
    (some "v0.1.0") (some "v0.4.5") (by decide) (by decide) (by decide)

/-! ## Idempotence of the extraction loop (C3)

A successful extraction's writes depend only on the archive, never on the
destination tree, and every single operation it performs — `makedirs` with
`exist_ok=True`, and overwriting a file with the same bytes — leaves a
tree it has already produced unchanged. The development below makes that
precise: after a successful run, every operation of the run is *stable* on
the final tree (applying it again succeeds and returns the same tree), so
re-running the whole extraction on its own output reproduces it exactly.
-/

theorem setT_eq_self (t : FsTree) (p : FsPath) (e : Entry) (h : t p = some e) :
    setT t p e = t := by
  funext q
  by_cases hq : q = p
  · subst hq; simp [setT, h]
  · simp [setT, hq]

theorem setT_ne (t : FsTree) (p : FsPath) (e : Entry) (q : FsPath) (h : q ≠ p) :
    setT t p e q = t q := by
  simp [setT, h]

/-- The directory chain `mkdirAux done · todo` walks: every step of the
chain already holds a directory. -/
def DirsAlong (t : FsTree) : List String → List String → Prop
  | _, [] => True
  | done, c :: rest =>
    t (done ++ [c]) = some Entry.dir ∧ DirsAlong t (done ++ [c]) rest

/-- `mkdirAux` never removes or changes an existing entry: it only fills
empty slots with directories. -/
theorem mkdirAux_mono :
    ∀ (todo done : List String) (t t' : FsTree),
      mkdirAux done t todo = .ok t' →
      ∀ q e, t q = some e → t' q = some e := by
  intro todo
  induction todo with
  | nil =>
    intro done t t' h q e hq
    cases h
    exact hq
  | cons c rest ih =>
    intro done t t' h q e hq
    rw [mkdirAux] at h
    cases hp : t (done ++ [c]) with
    | none =>
      rw [hp] at h
      refine ih (done ++ [c]) _ t' h q e ?_
      have hqp : q ≠ done ++ [c] := by
        intro hcontra
        rw [hcontra, hp] at hq
        cases hq
      rw [setT_ne _ _ _ _ hqp]
      exact hq
    | some entry =>
      cases entry with
      | dir =>
        rw [hp] at h
        exact ih (done ++ [c]) t t' h q e hq
      | file b =>
        rw [hp] at h
        cases h

/-- A map preserving directories preserves `DirsAlong`. -/
theorem DirsAlong_mono (t t2 : FsTree)
    (h : ∀ q, t q = some Entry.dir → t2 q = some Entry.dir) :
    ∀ (todo done : List String), DirsAlong t done todo → DirsAlong t2 done todo := by
  intro todo
  induction todo with
  | nil => intro done hda; trivial
  | cons c rest ih =>
    intro done hda
    exact ⟨h _ hda.1, ih (done ++ [c]) hda.2⟩

/-- When the whole chain already consists of directories, `mkdirAux`
succeeds without touching the tree. -/
theorem mkdirAux_noop :
    ∀ (todo done : List String) (t : FsTree),
      DirsAlong t done todo → mkdirAux done t todo = .ok t := by
  intro todo
  induction todo with
  | nil => intro done t _; rfl
  | cons c rest ih =>
    intro done t hda
    rw [mkdirAux, hda.1]
    exact ih (done ++ [c]) t hda.2

/-- After a successful `mkdirAux`, the whole chain consists of
directories in the resulting tree. -/
theorem mkdirAux_post :
    ∀ (todo done : List String) (t t' : FsTree),
      mkdirAux done t todo = .ok t' → DirsAlong t' done todo := by
  intro todo
  induction todo with
  | nil => intro done t t' _; trivial
  | cons c rest ih =>
    intro done t t' h
    rw [mkdirAux] at h
    cases hp : t (done ++ [c]) with
    | none =>
      rw [hp] at h
      refine ⟨?_, ih (done ++ [c]) _ t' h⟩
      exact mkdirAux_mono rest (done ++ [c]) _ t' h _ _ (by simp [setT])
    | some entry =>
      cases entry with
      | dir =>
        rw [hp] at h
        exact ⟨mkdirAux_mono rest (done ++ [c]) t t' h _ _ hp, ih (done ++ [c]) t t' h⟩
      | file b =>
        rw [hp] at h
        cases h

/-- Inversion of a successful `writeFileT`. -/
theorem writeFileT_ok_inv (t t' : FsTree) (p : FsPath) (v : String)
    (h : writeFileT t p v = .ok t') :
    ∃ t1, mkdirAll t p.dropLast = .ok t1 ∧ t1 p ≠ some Entry.dir
      ∧ t' = setT t1 p (Entry.file v) := by
  unfold writeFileT at h
  cases hm : mkdirAll t p.dropLast with
  | error e => rw [hm] at h; cases h
  | ok t1 =>
    simp only [hm] at h
    cases hp : t1 p with
    | none =>
      simp only [hp] at h
      cases h
      exact ⟨t1, rfl, by simp [hp], rfl⟩
    | some entry =>
      cases entry with
      | dir => simp only [hp] at h; cases h
      | file b =>
        simp only [hp] at h
        cases h
        exact ⟨t1, rfl, by simp [hp], rfl⟩

/-- A successful operation never turns a directory into anything else. -/
theorem runOp_dir_persist (o : FsOp) (t t' : FsTree)
    (h : runOp o t = .ok t') :
    ∀ q, t q = some Entry.dir → t' q = some Entry.dir := by
  intro q hq
  cases o with
  | mkdir p => exact mkdirAux_mono p [] t t' h q _ hq
  | writeF p v =>
    obtain ⟨t1, hm, hnd, ht'⟩ := writeFileT_ok_inv t t' p v h
    have h1 : t1 q = some Entry.dir := mkdirAux_mono p.dropLast [] t t1 hm q _ hq
    have hqp : q ≠ p := by
      intro hcontra
      rw [hcontra] at h1
      exact hnd h1
    rw [ht', setT_ne _ _ _ _ hqp]
    exact h1

/-- The write target of an operation, if any. -/
def writeTargetOf : FsOp → Option FsPath
  | .mkdir _ => none
  | .writeF p _ => some p

/-- A successful operation preserves a file entry whose path it does not
write to. -/
theorem runOp_file_persist (o : FsOp) (t t' : FsTree) (q : FsPath) (b : String)
    (h : runOp o t = .ok t') (hq : t q = some (Entry.file b))
    (hne : writeTargetOf o ≠ some q) :
    t' q = some (Entry.file b) := by
  cases o with
  | mkdir p => exact mkdirAux_mono p [] t t' h q _ hq
  | writeF p v =>
    obtain ⟨t1, hm, _, ht'⟩ := writeFileT_ok_inv t t' p v h
    have h1 : t1 q = some (Entry.file b) := mkdirAux_mono p.dropLast [] t t1 hm q _ hq
    have hqp : q ≠ p := by
      intro hcontra
      exact hne (by rw [hcontra]; rfl)
    rw [ht', setT_ne _ _ _ _ hqp]
    exact h1

/-- An operation is *stable* on a tree when the tree already contains
everything the operation would create. -/
def StableOp : FsOp → FsTree → Prop
  | .mkdir p, t => DirsAlong t [] p
  | .writeF p v, t => DirsAlong t [] p.dropLast ∧ t p = some (Entry.file v)

/-- Right after a successful operation, the operation is stable on the
resulting tree. -/
theorem runOp_stable_post (o : FsOp) (t t' : FsTree) (h : runOp o t = .ok t') :
    StableOp o t' := by
  cases o with
  | mkdir p => exact mkdirAux_post p [] t t' h
  | writeF p v =>
    obtain ⟨t1, hm, hnd, ht'⟩ := writeFileT_ok_inv t t' p v h
    constructor
    · refine DirsAlong_mono t1 t' ?_ p.dropLast [] (mkdirAux_post p.dropLast [] t t1 hm)
      intro q hq
      have hqp : q ≠ p := by
        intro hcontra
        rw [hcontra] at hq
        exact hnd hq
      rw [ht', setT_ne _ _ _ _ hqp]
      exact hq
    · rw [ht']
      simp [setT]

/-- A stable operation succeeds and leaves the tree unchanged. -/
theorem runOp_stable_noop (o : FsOp) (t : FsTree) (h : StableOp o t) :
    runOp o t = .ok t := by
  cases o with
  | mkdir p => exact mkdirAux_noop p [] t h
  | writeF p v =>
    obtain ⟨hda, hfile⟩ := h
    show writeFileT t p v = .ok t
    unfold writeFileT
    simp only [mkdirAux_noop p.dropLast [] t hda, mkdirAll, hfile,
      setT_eq_self t p (Entry.file v) hfile]

/-- Write targets of two operations are compatible when they are not the
same file path. -/
def OpCompat : FsOp → FsOp → Prop
  | .writeF p _, .writeF q _ => p ≠ q
  | _, _ => True

/-- Stability survives a later successful operation with a compatible
write target. -/
theorem stable_persist (o o2 : FsOp) (t t' : FsTree)
    (hs : StableOp o t) (h : runOp o2 t = .ok t') (hc : OpCompat o o2) :
    StableOp o t' := by
  cases o with
  | mkdir p =>
    exact DirsAlong_mono t t' (runOp_dir_persist o2 t t' h) p [] hs
  | writeF p v =>
    obtain ⟨hda, hfile⟩ := hs
    refine ⟨DirsAlong_mono t t' (runOp_dir_persist o2 t t' h) p.dropLast [] hda, ?_⟩
    refine runOp_file_persist o2 t t' p v h hfile ?_
    cases o2 with
    | mkdir q => simp [writeTargetOf]
    | writeF q w =>
      have hne : q ≠ p := fun hqp => hc (hqp.symm)
      simp [writeTargetOf, hne]

/-- The file paths written by a run's operations. -/
def wrTargets (L : List FsOp) : List FsPath := L.filterMap writeTargetOf

theorem runOps_ok_inv (o : FsOp) (os : List FsOp) (t t' : FsTree)
    (h : runOps (o :: os) t = .ok t') :
    ∃ t1, runOp o t = .ok t1 ∧ runOps os t1 = .ok t' := by
  rw [runOps] at h
  cases hr : runOp o t with
  | error e => rw [hr] at h; cases h
  | ok t1 =>
    rw [hr] at h
    exact ⟨t1, rfl, h⟩

theorem stable_persist_list :
    ∀ (L : List FsOp) (o : FsOp) (t t' : FsTree),
      StableOp o t → runOps L t = .ok t' → (∀ o2 ∈ L, OpCompat o o2) →
      StableOp o t' := by
  intro L
  induction L with
  | nil =>
    intro o t t' hs h _
    cases h
    exact hs
  | cons o2 rest ih =>
    intro o t t' hs h hc
    obtain ⟨t1, h2, hrest⟩ := runOps_ok_inv o2 rest t t' h
    refine ih o t1 t' ?_ hrest (fun o3 ho3 => hc o3 (List.mem_cons_of_mem o2 ho3))
    exact stable_persist o o2 t t1 hs h2 (hc o2 (List.mem_cons_self o2 rest))

theorem wrTargets_cons_mkdir (p : FsPath) (rest : List FsOp) :
    wrTargets (FsOp.mkdir p :: rest) = wrTargets rest := by
  simp [wrTargets, List.filterMap_cons, writeTargetOf]

theorem wrTargets_cons_writeF (p : FsPath) (v : String) (rest : List FsOp) :
    wrTargets (FsOp.writeF p v :: rest) = p :: wrTargets rest := by
  simp [wrTargets, List.filterMap_cons, writeTargetOf]

theorem mem_wrTargets_of_writeF (rest : List FsOp) (q : FsPath) (w : String)
    (hq : FsOp.writeF q w ∈ rest) : q ∈ wrTargets rest := by
  exact List.mem_filterMap.mpr ⟨FsOp.writeF q w, hq, rfl⟩

/-- After a successful run with pairwise distinct file targets, every
operation of the run is stable on the final tree. -/
theorem runOps_all_stable :
    ∀ (L : List FsOp) (t t' : FsTree),
      runOps L t = .ok t' → (wrTargets L).Nodup →
      ∀ o ∈ L, StableOp o t' := by
  intro L
  induction L with
  | nil =>
    intro t t' _ _ o ho
    cases ho
  | cons o0 rest ih =>
    intro t t' h hnd o ho
    obtain ⟨t1, h0, hrest⟩ := runOps_ok_inv o0 rest t t' h
    have hndrest : (wrTargets rest).Nodup := by
      cases o0 with
      | mkdir p => rw [wrTargets_cons_mkdir] at hnd; exact hnd
      | writeF p v => rw [wrTargets_cons_writeF] at hnd; exact hnd.of_cons
    rcases List.mem_cons.mp ho with rfl | hmem
    · have hcompat : ∀ o2 ∈ rest, OpCompat o o2 := by
        intro o2 ho2
        cases o with
        | mkdir p => trivial
        | writeF p v =>
          cases o2 with
          | mkdir q => trivial
          | writeF q w =>
            rw [wrTargets_cons_writeF] at hnd
            intro hpq
            subst hpq
            exact (List.nodup_cons.mp hnd).1 (mem_wrTargets_of_writeF rest p w ho2)
      exact stable_persist_list rest o t1 t' (runOp_stable_post o t t1 h0) hrest hcompat
    · exact ih t1 t' hrest hndrest o hmem

/-- A run all of whose operations are stable on a tree reproduces that
tree. -/
theorem runOps_stable_noop :
    ∀ (L : List FsOp) (t : FsTree), (∀ o ∈ L, StableOp o t) →
      runOps L t = .ok t := by
  intro L
  induction L with
  | nil => intro t _; rfl
  | cons o rest ih =>
    intro t hs
    rw [runOps, runOp_stable_noop o t (hs o (List.mem_cons_self o rest))]
    exact ih t (fun o2 ho2 => hs o2 (List.mem_cons_of_mem o ho2))

/-- Validity of an archive for the idempotence property: its file entries,
after prefix stripping, target pairwise distinct paths (a well-formed zip
with a single top-level root folder has pairwise distinct member names and
hence distinct stripped file paths). -/
def distinctWriteTargets (ms : List Member) : Bool :=
  match commonRootOf (ms.map Member.name) with
  | .error _ => true
  | .ok c => decide ((wrTargets (opsOf c ms)).Nodup)

/-- C3 (confirmed): extraction is idempotent. For every archive whose
stripped file entries target pairwise distinct paths and every destination
tree, if extracting the archive succeeds and produces `t2`, re-extracting
the same archive over `t2` succeeds and returns `t2` unchanged: directory
entries find their directories already present (`exist_ok=True` is a
no-op), and file entries overwrite each target with the same bytes. -/
theorem extract_idempotent (ms : List Member) (t t2 : FsTree)
    (hd : distinctWriteTargets ms = true)
    (h : extractArchive ms t = .ok t2) :
    extractArchive ms t2 = .ok t2 := by
  unfold extractArchive at h ⊢
  cases hc : commonRootOf (ms.map Member.name) with
  | error e => rw [hc] at h; cases h
  | ok c =>
    rw [hc] at h
    have hnd : (wrTargets (opsOf c ms)).Nodup := by
      unfold distinctWriteTargets at hd
      rw [hc] at hd
      exact of_decide_eq_true hd
    exact runOps_stable_noop (opsOf c ms) t2 (runOps_all_stable (opsOf c ms) t t2 h hnd)

/-- A small well-formed archive with one top-level root folder, a nested
directory and two files. -/
def sampleArchive : List Member :=
  [⟨"Beammp-server-creator-1.0/", ""⟩,
   ⟨"Beammp-server-creator-1.0/README.md", "hello"⟩,
   ⟨"Beammp-server-creator-1.0/src/", ""⟩,
   ⟨"Beammp-server-creator-1.0/src/main.py", "code"⟩]

/-- The tree produced by extracting `sampleArchive` into an empty
destination. -/
def sampleExtracted : FsTree := extractResult sampleArchive emptyTree

/-- Witness for C3: extracting `sampleArchive` a second time over its own
output reproduces that output exactly. -/
theorem extract_idempotent_witness :
    extractArchive sampleArchive sampleExtracted = Except.ok sampleExtracted :=
  extract_idempotent sampleArchive emptyTree sampleExtracted (by decide) (by rfl)
